import Mathlib

/-!
# Verification of the AI attendance system core (src/app.py)

Shallow embedding of the decision core of `app.py`:

* the attendance ledger and `mark_attendance` (app.py lines 39-50);
* the matcher inside `recognize_faces` (lines 59-64), with
  `face_recognition.compare_faces` modelled as a thresholded Euclidean
  distance test per reference vector;
* the recognition loop `recognize_faces` (lines 53-77);
* `load_known_faces` (lines 20-34);
* the enrollment loop of the "Register New Person" tab (lines 90-102).

External collaborators (face detection/extraction, image decoding, file
I/O, UI rendering) are modelled as data: an image is represented by the
list of feature vectors the extractor yields for it, the CSV ledger by an
explicit list of records threaded through calls, the `known_faces`
directory by an association list from filename to the stored image's
feature vectors.

Feature vectors are lists of rationals.  `face_recognition.compare_faces`
computes `np.linalg.norm(known - probe) <= tolerance`; since both sides
are nonnegative this is equivalent to comparing the squared distance with
the squared tolerance, which is what `faceMatch` does (keeping everything
decidable over ℚ).
-/

/-- One row of `attendance_web.csv`: columns `Name, Date, Time`
(app.py line 17 and lines 44-48). -/
structure AttendanceRecord where
  name : String
  date : String
  time : String
deriving DecidableEq, Repr

/-- The duplicate test of app.py line 42:
`((df["Name"] == name) & (df["Date"] == today)).any()`. -/
def alreadyMarked (df : List AttendanceRecord) (name today : String) : Bool :=
  df.any (fun r => decide (r.name = name ∧ r.date = today))

/-- Number of ledger rows for a given (name, date) pair. -/
def countFor (df : List AttendanceRecord) (name today : String) : Nat :=
  (df.filter (fun r => decide (r.name = name ∧ r.date = today))).length

/-- Embedding of `mark_attendance` (app.py lines 39-50).  The CSV file is the state:
it is read at the top of the function and appended to at the end, so we
thread it explicitly.  `today` and `now` stand for the two
`datetime.now()` formattings.  Returns the Python function's boolean
result together with the new ledger contents. -/
def mark_attendance (df : List AttendanceRecord) (name today now : String) :
    Bool × List AttendanceRecord :=
  if alreadyMarked df name today then
    (false, df)
  else
    (true, df ++ [⟨name, today, now⟩])

theorem alreadyMarked_append_self (df : List AttendanceRecord) (name today t : String) :
    alreadyMarked (df ++ [⟨name, today, t⟩]) name today = true := by
  simp [alreadyMarked]

theorem countFor_append (df₁ df₂ : List AttendanceRecord) (name today : String) :
    countFor (df₁ ++ df₂) name today = countFor df₁ name today + countFor df₂ name today := by
  simp [countFor, List.filter_append]

theorem alreadyMarked_eq_false_iff (df : List AttendanceRecord) (name today : String) :
    alreadyMarked df name today = false ↔ countFor df name today = 0 := by
  simp [alreadyMarked, countFor, List.any_eq_true, List.filter_eq_nil_iff,
    List.length_eq_zero]

/-- C1: `mark_attendance` is idempotent per (name, date).  If the pair is
already in the ledger the call returns `False` (AlreadyMarked) and leaves
the ledger unchanged; otherwise the first call appends exactly one record
and returns `True` (Marked), a second call on the same pair returns
`False` and leaves the ledger unchanged, and the pair then has exactly
one stored record. -/
theorem mark_attendance_twice (df : List AttendanceRecord) (name today t₁ t₂ : String)
    (h : alreadyMarked df name today = false) :
    mark_attendance df name today t₁ = (true, df ++ [⟨name, today, t₁⟩]) ∧
    mark_attendance (df ++ [⟨name, today, t₁⟩]) name today t₂ =
      (false, df ++ [⟨name, today, t₁⟩]) ∧
    countFor (df ++ [⟨name, today, t₁⟩]) name today = 1 ∧
    (∀ df₂, alreadyMarked df₂ name today = true →
      mark_attendance df₂ name today t₂ = (false, df₂)) := by
  refine ⟨?_, ?_, ?_, ?_⟩
  · simp [mark_attendance, h]
  · simp [mark_attendance, alreadyMarked_append_self]
  · rw [countFor_append, (alreadyMarked_eq_false_iff df name today).mp h]
    simp [countFor]
  · intro df₂ h₂
    simp [mark_attendance, h₂]

/-- Witness for C1 at a concrete ledger. -/
theorem mark_attendance_twice_witness :
    mark_attendance [] "Alice" "2024-01-01" "09:00:00" =
      (true, [⟨"Alice", "2024-01-01", "09:00:00"⟩]) ∧
    mark_attendance [⟨"Alice", "2024-01-01", "09:00:00"⟩] "Alice" "2024-01-01" "17:00:00" =
      (false, [⟨"Alice", "2024-01-01", "09:00:00"⟩]) ∧
    countFor [⟨"Alice", "2024-01-01", "09:00:00"⟩] "Alice" "2024-01-01" = 1 := by
  have h := mark_attendance_twice [] "Alice" "2024-01-01" "09:00:00" "17:00:00" (by decide)
  exact ⟨by simpa using h.1, by simpa using h.2.1, by simpa using h.2.2.1⟩

theorem countFor_mark_le (df : List AttendanceRecord) (name today now n d : String)
    (hle : countFor df n d ≤ 1) :
    countFor (mark_attendance df name today now).2 n d ≤ 1 := by
  by_cases h : alreadyMarked df name today
  · simpa [mark_attendance, h] using hle
  · have hm : (mark_attendance df name today now).2 = df ++ [⟨name, today, now⟩] := by
      simp [mark_attendance, h]
    rw [hm, countFor_append]
    by_cases hnd : n = name ∧ d = today
    · obtain ⟨rfl, rfl⟩ := hnd
      rw [(alreadyMarked_eq_false_iff df n d).mp (by simpa using h)]
      simp [countFor]
    · have : countFor [(⟨name, today, now⟩ : AttendanceRecord)] n d = 0 := by
        simp [countFor, List.filter_eq_nil_iff]
        tauto
      omega

/-- C2: every `mark_attendance` call is append-only (the old ledger is an
unchanged initial segment of the new one and at most one row is added);
it preserves the per-(name, date) cardinality bound `≤ 1` for every pair;
and iterating the call any number of times for one (name, date) pair
keeps that pair's record count at most 1. -/
theorem mark_attendance_invariant (df : List AttendanceRecord) (name today now : String) :
    (∃ tail, (mark_attendance df name today now).2 = df ++ tail ∧ tail.length ≤ 1) ∧
    (∀ n d, countFor df n d ≤ 1 →
      countFor (mark_attendance df name today now).2 n d ≤ 1) ∧
    (∀ ts : List String, countFor df name today ≤ 1 →
      countFor (ts.foldl (fun df₂ t => (mark_attendance df₂ name today t).2) df)
        name today ≤ 1) := by
  refine ⟨?_, fun n d => countFor_mark_le df name today now n d, ?_⟩
  · by_cases h : alreadyMarked df name today
    · exact ⟨[], by simp [mark_attendance, h], by simp⟩
    · exact ⟨[⟨name, today, now⟩], by simp [mark_attendance, h], by simp⟩
  · intro ts
    induction ts generalizing df with
    | nil => intro hle; simpa using hle
    | cons t ts ih =>
      intro hle
      rw [List.foldl_cons]
      exact ih _ (countFor_mark_le df name today t name today hle)

/-- Witness for C2 at a concrete ledger: one marking plus a repeat. -/
theorem mark_attendance_invariant_witness :
    (∃ tail, (mark_attendance [] "Alice" "2024-01-01" "09:00:00").2 = [] ++ tail ∧
      tail.length ≤ 1) ∧
    countFor (mark_attendance [] "Alice" "2024-01-01" "09:00:00").2 "Alice" "2024-01-01" ≤ 1 ∧
    countFor (["09:00:00", "17:00:00"].foldl
      (fun df₂ t => (mark_attendance df₂ "Alice" "2024-01-01" t).2) [])
      "Alice" "2024-01-01" ≤ 1 :=
  ⟨(mark_attendance_invariant [] "Alice" "2024-01-01" "09:00:00").1,
    (mark_attendance_invariant [] "Alice" "2024-01-01" "09:00:00").2.1 "Alice" "2024-01-01"
      (by decide),
    (mark_attendance_invariant [] "Alice" "2024-01-01" "09:00:00").2.2
      ["09:00:00", "17:00:00"] (by decide)⟩


/-- A face feature vector.  The external extractor's embedding dimension
is opaque, so a vector is a list of rationals. -/
abbrev FeatureVec := List ℚ

/-- Squared Euclidean distance between two feature vectors: the square of
`np.linalg.norm(known - probe)` used by `face_recognition.face_distance`. -/
def dist2 (v w : FeatureVec) : ℚ :=
  (List.zipWith (fun a b => (a - b) * (a - b)) v w).sum

/-- One entry of `face_recognition.compare_faces`:
`norm(known - probe) <= tolerance`.  Both sides are nonnegative, so the
test is stated equivalently on squares, keeping it decidable over ℚ. -/
def faceMatch (tolerance : ℚ) (known probe : FeatureVec) : Bool :=
  decide (dist2 known probe ≤ tolerance * tolerance)

/-- Embedding of `face_recognition.compare_faces(known_encodings, probe, tolerance)`
(app.py line 60): one boolean per reference vector, in registry order. -/
def compare_faces (known_encodings : List FeatureVec) (probe : FeatureVec)
    (tolerance : ℚ) : List Bool :=
  known_encodings.map (fun k => faceMatch tolerance k probe)

/-- The identity decision of app.py lines 60-64: `name = "Unknown"`, then
if some comparison returned True, `name = known_names[matches.index(True)]`.
Python raises `IndexError` when that index is out of range; the `""`
default stands for that crash case, which C10 shows unreachable whenever
the two registry lists have equal length. -/
def matchName (known_encodings : List FeatureVec) (known_names : List String)
    (probe : FeatureVec) : String :=
  let flags := compare_faces known_encodings probe (6/10)
  if true ∈ flags then known_names.getD (flags.indexOf true) "" else "Unknown"

theorem indexOf_true_get (l : List Bool) (h : true ∈ l) :
    l[l.indexOf true]? = some true ∧
    ∀ j, j < l.indexOf true → l[j]? = some false := by
  induction l with
  | nil => simp at h
  | cons b t ih =>
    cases b
    · have hmem : true ∈ t := by simpa using h
      have hidx : (false :: t).indexOf true = t.indexOf true + 1 := by
        simp [List.indexOf_cons]
      refine ⟨?_, ?_⟩
      · rw [hidx]
        simpa using (ih hmem).1
      · intro j hj
        rw [hidx] at hj
        cases j with
        | zero => simp
        | succ j =>
          simpa using (ih hmem).2 j (Nat.lt_of_succ_lt_succ hj)
    · have hidx : (true :: t).indexOf true = 0 := by
        simp [List.indexOf_cons]
      exact ⟨by rw [hidx]; simp, fun j hj => absurd hj (by rw [hidx]; omega)⟩

/-- C3: if every reference vector is strictly farther than the threshold
T = 0.6 from the probe (equivalently, squared distance above 0.36), the
matcher answers "Unknown"; on the empty registry it always answers
"Unknown". -/
theorem matchName_unknown (encs : List FeatureVec) (names : List String)
    (probe : FeatureVec)
    (h : ∀ e ∈ encs, (6/10 : ℚ) * (6/10) < dist2 e probe) :
    matchName encs names probe = "Unknown" ∧
    ∀ (names₂ : List String) (probe₂ : FeatureVec),
      matchName [] names₂ probe₂ = "Unknown" := by
  refine ⟨?_, fun names₂ probe₂ => by simp [matchName, compare_faces]⟩
  have hno : true ∉ compare_faces encs probe (6/10) := by
    simp only [compare_faces, List.mem_map]
    rintro ⟨e, he, hm⟩
    exact absurd (of_decide_eq_true hm) (not_le.mpr (h e he))
  simp [matchName, hno]

/-- Witness for C3: a one-vector registry at squared distance 1 > 0.36. -/
theorem matchName_unknown_witness :
    matchName [[1]] ["Alice"] [0] = "Unknown" :=
  (matchName_unknown [[1]] ["Alice"] [0] (by
    intro e he
    simp only [List.mem_singleton] at he
    subst he
    norm_num [dist2])).1

/-- Decision analysis of the matcher, shared by the first-match and
membership results: the decided index is the first True of the comparison
list, it is in range, the vector there matches, every earlier one does
not, and the returned name is the one stored at that index. -/
theorem matchName_decision (encs : List FeatureVec) (names : List String)
    (probe : FeatureVec) (hlen : names.length = encs.length)
    (hmem : true ∈ compare_faces encs probe (6/10)) :
    ∃ i, i = (compare_faces encs probe (6/10)).indexOf true ∧
      i < encs.length ∧
      (∃ e, encs[i]? = some e ∧ faceMatch (6/10) e probe = true) ∧
      (∀ j e, j < i → encs[j]? = some e → faceMatch (6/10) e probe = false) ∧
      names[i]? = some (matchName encs names probe) := by
  set ms := compare_faces encs probe (6/10) with hms
  have hspec := indexOf_true_get ms hmem
  have hilt : ms.indexOf true < ms.length := List.indexOf_lt_length.mpr hmem
  have hlen2 : ms.length = encs.length := by rw [hms]; simp [compare_faces]
  have hmap : ∀ j : Nat, ms[j]? = Option.map (fun k => faceMatch (6/10) k probe) encs[j]? := by
    intro j
    rw [hms]
    exact List.getElem?_map _ encs j
  refine ⟨ms.indexOf true, rfl, by omega, ?_, ?_, ?_⟩
  · have h1 := hspec.1
    rw [hmap] at h1
    cases henc : encs[ms.indexOf true]? with
    | none => rw [henc] at h1; simp at h1
    | some e =>
      rw [henc] at h1
      exact ⟨e, rfl, by simpa using h1⟩
  · intro j e hj he
    have h2 := hspec.2 j hj
    rw [hmap, he] at h2
    simpa using h2
  · have hiname : ms.indexOf true < names.length := by omega
    rw [List.getElem?_eq_getElem hiname]
    have : matchName encs names probe = names.getD (ms.indexOf true) "" := by
      simp only [matchName, ← hms]
      rw [if_pos hmem]
    rw [this, List.getD_eq_getElem?_getD, List.getElem?_eq_getElem hiname]
    rfl

/-- C4: when some reference vector is within the threshold, the result is
the name at the index of the FIRST matching reference vector in registry
order (not the closest one): that index is in range, the vector there
matches, every earlier vector does not match, and the returned name is
the one the registry stores at that index. -/
theorem matchName_first_match (encs : List FeatureVec) (names : List String)
    (probe : FeatureVec) (hlen : names.length = encs.length)
    (hmem : true ∈ compare_faces encs probe (6/10)) :
    ∃ i, i = (compare_faces encs probe (6/10)).indexOf true ∧
      i < encs.length ∧
      (∃ e, encs[i]? = some e ∧ faceMatch (6/10) e probe = true) ∧
      (∀ j e, j < i → encs[j]? = some e → faceMatch (6/10) e probe = false) ∧
      names[i]? = some (matchName encs names probe) :=
  matchName_decision encs names probe hlen hmem

/-- Witness for C4: registry [far, near], probe within threshold of the
second entry only, so the decision index is 1 and the result "Alice". -/
theorem matchName_first_match_witness :
    ∃ i, i = (compare_faces [[1], [0]] [0] (6/10)).indexOf true ∧
      i < ([[1], [0]] : List FeatureVec).length ∧
      (∃ e, ([[1], [0]] : List FeatureVec)[i]? = some e ∧
        faceMatch (6/10) e [0] = true) ∧
      (∀ j e, j < i → ([[1], [0]] : List FeatureVec)[j]? = some e →
        faceMatch (6/10) e [0] = false) ∧
      (["Bob", "Alice"] : List String)[i]? =
        some (matchName [[1], [0]] ["Bob", "Alice"] [0]) :=
  matchName_first_match [[1], [0]] ["Bob", "Alice"] [0] rfl (by
    have : faceMatch (6/10) [0] [0] = true := by
      simp only [faceMatch, decide_eq_true_eq]
      norm_num [dist2]
    simp [compare_faces, this])

/-- C5: whenever the two registry lists have equal length (which
`load_known_faces` guarantees), the matcher returns "Unknown" or a name
present in the registry, never a name absent from it. -/
theorem matchName_mem (encs : List FeatureVec) (names : List String)
    (probe : FeatureVec) (hlen : names.length = encs.length) :
    matchName encs names probe = "Unknown" ∨ matchName encs names probe ∈ names := by
  by_cases hmem : true ∈ compare_faces encs probe (6/10)
  · right
    obtain ⟨i, _, _, _, _, hname⟩ := matchName_decision encs names probe hlen hmem
    obtain ⟨hi, heq⟩ := List.getElem?_eq_some.mp hname
    exact heq ▸ List.getElem_mem hi
  · left
    simp [matchName, hmem]

/-- Witness for C5 on a concrete matching registry. -/
theorem matchName_mem_witness :
    matchName [[0]] ["Alice"] [0] = "Unknown" ∨
      matchName [[0]] ["Alice"] [0] ∈ ["Alice"] :=
  matchName_mem [[0]] ["Alice"] [0] rfl

/-- The body of the per-face loop of app.py lines 59-70: compare against
the registry, pick the first matching name, call `mark_attendance` for a
matched identity, and format the per-face result string. -/
def processFace (known_encodings : List FeatureVec) (known_names : List String)
    (today now : String) (df : List AttendanceRecord) (face_encoding : FeatureVec) :
    String × List AttendanceRecord :=
  let flags := compare_faces known_encodings face_encoding (6/10)
  if true ∈ flags then
    let name := known_names.getD (flags.indexOf true) ""
    let r := mark_attendance df name today now
    (if r.1 then "✓ " ++ name ++ " - Attendance Marked!"
     else "✓ " ++ name ++ " - Already Marked Today", r.2)
  else
    ("✗ Unknown Person", df)

/-- Embedding of `recognize_faces` (app.py lines 53-77).  Face detection and encoding
extraction are external collaborators, so their outputs for the input
image — `face_locations` (pixel boxes) and `face_encodings` (one vector
per detected face) — are taken as inputs.  The annotated image is a
drawing effect with no decision content and is not modelled.  Returns the
per-face result strings, the count `len(face_locations)`, and the ledger
after the per-face `mark_attendance` calls. -/
def recognize_faces (known_encodings : List FeatureVec) (known_names : List String)
    (today now : String) (face_locations : List (ℤ × ℤ × ℤ × ℤ))
    (face_encodings : List FeatureVec) (df : List AttendanceRecord) :
    List String × Nat × List AttendanceRecord :=
  let p := face_encodings.foldl
    (fun acc enc =>
      let r := processFace known_encodings known_names today now acc.2 enc
      (acc.1 ++ [r.1], r.2))
    (([] : List String), df)
  (p.1, face_locations.length, p.2)

theorem processFace_empty_registry (today now : String) (df : List AttendanceRecord)
    (enc : FeatureVec) :
    processFace [] [] today now df enc = ("✗ Unknown Person", df) := by
  simp [processFace, compare_faces]

theorem recognize_foldl_empty_registry (today now : String) :
    ∀ (faces : List FeatureVec) (acc : List String) (df : List AttendanceRecord),
      faces.foldl
        (fun acc enc =>
          let r := processFace [] [] today now acc.2 enc
          (acc.1 ++ [r.1], r.2)) (acc, df) =
      (acc ++ faces.map (fun _ => "✗ Unknown Person"), df) := by
  intro faces
  induction faces with
  | nil => intro acc df; simp
  | cons f t ih =>
    intro acc df
    rw [List.foldl_cons]
    have hstep : (let r := processFace [] [] today now (acc, df).2 f
        ((acc, df).1 ++ [r.1], r.2)) = (acc ++ ["✗ Unknown Person"], df) := by
      simp [processFace_empty_registry]
    rw [hstep, ih]
    simp

/-- C9: `recognize_faces` reports `len(face_locations)` as the face count
whatever the match outcomes are; with an empty registry every detected
face yields the "✗ Unknown Person" result (so two detected faces give
count 2 and two such results) and the ledger is untouched; and when
detection yields no faces it returns count 0 with an empty result list
rather than an error. -/
theorem recognize_faces_counts (encs : List FeatureVec) (names : List String)
    (today now : String) (locs : List (ℤ × ℤ × ℤ × ℤ))
    (faces : List FeatureVec) (df : List AttendanceRecord) :
    (recognize_faces encs names today now locs faces df).2.1 = locs.length ∧
    recognize_faces [] [] today now locs faces df =
      (faces.map (fun _ => "✗ Unknown Person"), locs.length, df) ∧
    recognize_faces encs names today now [] [] df = ([], 0, df) := by
  refine ⟨rfl, ?_, rfl⟩
  simp only [recognize_faces]
  rw [recognize_foldl_empty_registry]
  simp

/-- A file of the `known_faces` directory as the loader sees it: its name
and the feature vectors the external extractor finds in its pixels. -/
structure StoredImage where
  filename : String
  encodings : List FeatureVec

/-- Python `str.lower()` modelled on the character list. -/
def lowerStr (s : String) : String :=
  String.mk (s.toList.map Char.toLower)

/-- Python `str.endswith(t)` modelled on the character list. -/
def strEndsWith (s t : String) : Bool :=
  List.isSuffixOf t.toList s.toList

/-- The test `filename.lower().endswith(('.png', '.jpg', '.jpeg'))`
of app.py line 24. -/
def hasImageExt (filename : String) : Bool :=
  let l := lowerStr filename
  strEndsWith l ".png" || strEndsWith l ".jpg" || strEndsWith l ".jpeg"

/-- Python `os.path.splitext(filename)[0]`: everything before the last dot, or
the whole name when there is no dot. -/
def splitextRoot (s : String) : String :=
  if s.toList.contains '.' then
    String.mk (s.toList.take (s.toList.length - 1 - s.toList.reverse.indexOf '.'))
  else s

/-- Python `str.replace(old, new)` for a single-character pattern, the
only form app.py uses (`"_" → " "` on load, `" " → "_"` on enrollment). -/
def charReplace (s : String) (old new : Char) : String :=
  String.mk (s.toList.map (fun c => if c = old then new else c))

/-- Python `str.title()`: a letter after a letter is lowercased, a letter
after a non-letter is uppercased, other characters pass through. -/
def pyTitle (s : String) : String :=
  String.mk ((s.toList.foldl
    (fun (acc : List Char × Bool) c =>
      (acc.1 ++ [if c.isAlpha then (if acc.2 then c.toLower else c.toUpper) else c],
       c.isAlpha))
    ([], false)).1)

/-- Display name of a stored file (app.py line 29):
`os.path.splitext(filename)[0].replace("_", " ").title()`. -/
def displayName (filename : String) : String :=
  pyTitle (charReplace (splitextRoot filename) '_' ' ')

/-- Body of the `load_known_faces` loop (app.py lines 23-33).  For an
image file the first extracted encoding and the display name are appended
together; when extraction yields no encoding, `face_encodings(image)[0]`
raises IndexError, the bare `except` warns, and nothing is appended. -/
def loadStep (acc : List FeatureVec × List String) (f : StoredImage) :
    List FeatureVec × List String :=
  if hasImageExt f.filename then
    match f.encodings with
    | [] => acc
    | e :: _ => (acc.1 ++ [e], acc.2 ++ [displayName f.filename])
  else acc

/-- Embedding of `load_known_faces` (app.py lines 20-34): fold the loop body over the
directory listing, starting from two empty lists. -/
def load_known_faces (files : List StoredImage) :
    List FeatureVec × List String :=
  files.foldl loadStep ([], [])

theorem loadStep_length (acc : List FeatureVec × List String) (f : StoredImage)
    (h : acc.1.length = acc.2.length) :
    (loadStep acc f).1.length = (loadStep acc f).2.length := by
  unfold loadStep
  split
  · match f.encodings with
    | [] => exact h
    | e :: _ => simpa using h
  · exact h

theorem load_foldl_length :
    ∀ (files : List StoredImage) (acc : List FeatureVec × List String),
      acc.1.length = acc.2.length →
      (files.foldl loadStep acc).1.length = (files.foldl loadStep acc).2.length := by
  intro files
  induction files with
  | nil => intro acc h; simpa using h
  | cons f t ih =>
    intro acc h
    rw [List.foldl_cons]
    exact ih (loadStep acc f) (loadStep_length acc f h)

/-- C10: `load_known_faces` always returns an encoding list and a name
list of equal length, so in `recognize_faces`, whenever some comparison
against the loaded registry returns True, the index
`matches.index(True)` used to look up `known_names` is within the bounds
of the name list — the lookup is total. -/
theorem load_known_faces_aligned (files : List StoredImage) (probe : FeatureVec)
    (hmem : true ∈ compare_faces (load_known_faces files).1 probe (6/10)) :
    (load_known_faces files).1.length = (load_known_faces files).2.length ∧
    (compare_faces (load_known_faces files).1 probe (6/10)).indexOf true <
      (load_known_faces files).2.length := by
  have hlen : (load_known_faces files).1.length = (load_known_faces files).2.length :=
    load_foldl_length files ([], []) rfl
  refine ⟨hlen, ?_⟩
  have h1 := List.indexOf_lt_length.mpr hmem
  have h2 : (compare_faces (load_known_faces files).1 probe (6/10)).length =
      (load_known_faces files).1.length := by
    simp [compare_faces]
  omega

/-- Witness for C10: one stored photo of Alice, probe equal to her
reference vector. -/
theorem load_known_faces_aligned_witness :
    (load_known_faces [⟨"alice.jpg", [[0]]⟩]).1.length =
      (load_known_faces [⟨"alice.jpg", [[0]]⟩]).2.length ∧
    (compare_faces (load_known_faces [⟨"alice.jpg", [[0]]⟩]).1 [0] (6/10)).indexOf true <
      (load_known_faces [⟨"alice.jpg", [[0]]⟩]).2.length :=
  load_known_faces_aligned [⟨"alice.jpg", [[0]]⟩] [0] (by
    have h1 : load_known_faces [⟨"alice.jpg", [[0]]⟩] = ([[0]], ["Alice"]) := rfl
    rw [h1]
    have h2 : faceMatch (6/10) [0] [0] = true := by
      simp only [faceMatch, decide_eq_true_eq]
      norm_num [dist2]
    simp [compare_faces, h2])

/-- An uploaded enrollment photo: its client-side `file.name` and the
feature vectors the external extractor finds in its pixels. -/
structure UploadedFile where
  name : String
  encodings : List FeatureVec
deriving DecidableEq, Repr

/-- Writing an image file (`cv2.imwrite`, app.py line 99) into the
`known_faces` directory, modelled as an association list from filename to
the feature vectors of the stored pixels: writing to an existing path
overwrites that file in place, a new path adds a directory entry. -/
def storeWrite (store : List (String × List FeatureVec)) (key : String)
    (v : List FeatureVec) : List (String × List FeatureVec) :=
  if store.any (fun q => decide (q.1 = key)) then
    store.map (fun q => if q.1 = key then (key, v) else q)
  else store ++ [(key, v)]

/-- Python `file.name.split('.')[-1]`: the part after the last dot, or
the whole name when there is no dot. -/
def lastDotSuffix (s : String) : String :=
  if s.toList.contains '.' then
    String.mk (s.toList.drop (s.toList.length - s.toList.reverse.indexOf '.'))
  else s

/-- The save path of app.py line 98:
`f"{name.replace(' ', '_')}.{file.name.split('.')[-1]}"`. -/
def savePath (personName fileName : String) : String :=
  charReplace personName ' ' '_' ++ "." ++ lastDotSuffix fileName

/-- Body of the enrollment loop (app.py lines 91-99): an image with zero
extracted vectors produces the `st.error` message and is skipped;
otherwise the image is written to the save path.  The extractor is
deterministic on pixels, so the stored file carries the uploaded image's
feature vectors. -/
def registerStep (personName : String)
    (acc : List (String × List FeatureVec) × List String) (file : UploadedFile) :
    List (String × List FeatureVec) × List String :=
  if file.encodings.length = 0 then
    (acc.1, acc.2 ++ ["No face detected in " ++ file.name])
  else
    (storeWrite acc.1 (savePath personName file.name) file.encodings, acc.2)

/-- Outcome of one press of the Register button: the new state of the
`known_faces` store, the collected `st.error` messages, and whether the
success banner was shown. -/
structure RegisterOutcome where
  store : List (String × List FeatureVec)
  errors : List String
  success : Bool
deriving DecidableEq, Repr

/-- The Register tab (app.py lines 90-102) once the button is pressed
with a nonempty name and a nonempty upload list: fold the loop body over
the uploaded files; afterwards `st.success(f"{name} registered
successfully!")` at line 100 runs unconditionally. -/
def register (store : List (String × List FeatureVec)) (personName : String)
    (files : List UploadedFile) : RegisterOutcome :=
  let p := files.foldl (registerStep personName) (store, [])
  ⟨p.1, p.2, true⟩

theorem registerStep_fst (p : String) (s : List (String × List FeatureVec))
    (e₁ e₂ : List String) (f : UploadedFile) :
    (registerStep p (s, e₁) f).1 = (registerStep p (s, e₂) f).1 := by
  simp only [registerStep]
  split <;> rfl

theorem registerStep_snd (p : String) (s : List (String × List FeatureVec))
    (e : List String) (f : UploadedFile) :
    (registerStep p (s, e) f).2 = e ++ (registerStep p (s, []) f).2 := by
  simp only [registerStep]
  split <;> simp

theorem register_foldl_decompose (p : String) :
    ∀ (fs : List UploadedFile) (s : List (String × List FeatureVec)) (e : List String),
      fs.foldl (registerStep p) (s, e) =
        ((fs.foldl (registerStep p) (s, [])).1,
          e ++ (fs.foldl (registerStep p) (s, [])).2) := by
  intro fs
  induction fs with
  | nil => intro s e; simp
  | cons f t ih =>
    intro s e
    rw [List.foldl_cons, List.foldl_cons]
    have h1 : registerStep p (s, e) f =
        ((registerStep p (s, []) f).1, e ++ (registerStep p (s, []) f).2) := by
      rw [registerStep_fst p s ([]) e f, ← registerStep_snd p s e f]
    rw [h1, ih]
    conv_rhs =>
      rw [show registerStep p (s, []) f =
        ((registerStep p (s, []) f).1, (registerStep p (s, []) f).2) from rfl, ih]
    simp

/-- C6: during a batch enrollment, an image with zero extracted vectors
is skipped: the resulting file store is exactly the one obtained without
that image (no entry is created or overwritten for the identity from it),
the per-image failure message "No face detected in <file>" is reported,
and the remaining files of the batch are still processed. -/
theorem register_skips_faceless (store : List (String × List FeatureVec))
    (p : String) (fs₁ fs₂ : List UploadedFile) (bad : UploadedFile)
    (hbad : bad.encodings = []) :
    (register store p (fs₁ ++ bad :: fs₂)).store =
      (register store p (fs₁ ++ fs₂)).store ∧
    ("No face detected in " ++ bad.name) ∈
      (register store p (fs₁ ++ bad :: fs₂)).errors := by
  have hstep : ∀ (a : List (String × List FeatureVec) × List String),
      registerStep p a bad = (a.1, a.2 ++ ["No face detected in " ++ bad.name]) := by
    intro a
    simp [registerStep, hbad]
  have hA : ∀ x : List (String × List FeatureVec) × List String, x = (x.1, x.2) :=
    fun x => rfl
  constructor
  · show (List.foldl (registerStep p) (store, []) (fs₁ ++ bad :: fs₂)).1 =
      (List.foldl (registerStep p) (store, []) (fs₁ ++ fs₂)).1
    rw [List.foldl_append, List.foldl_append, List.foldl_cons, hstep]
    rw [register_foldl_decompose p fs₂]
    conv_rhs =>
      rw [hA (List.foldl (registerStep p) (store, []) fs₁), register_foldl_decompose p fs₂]
  · show ("No face detected in " ++ bad.name) ∈
      (List.foldl (registerStep p) (store, []) (fs₁ ++ bad :: fs₂)).2
    rw [List.foldl_append, List.foldl_cons, hstep, register_foldl_decompose p fs₂]
    simp

/-- Witness for C6: a faceless photo between none and one good photo. -/
theorem register_skips_faceless_witness :
    (register [] "Alice" ([] ++ ⟨"bad.jpg", []⟩ :: [⟨"good.jpg", [[0]]⟩])).store =
      (register [] "Alice" ([] ++ [⟨"good.jpg", [[0]]⟩])).store ∧
    ("No face detected in " ++ "bad.jpg") ∈
      (register [] "Alice" ([] ++ ⟨"bad.jpg", []⟩ :: [⟨"good.jpg", [[0]]⟩])).errors :=
  register_skips_faceless [] "Alice" [] [⟨"good.jpg", [[0]]⟩] ⟨"bad.jpg", []⟩ rfl

/-- C7, behavior at the failing input: with a nonempty name and a single
uploaded image in which no face is found, the loop stores nothing and
reports the per-image error, yet the success banner is still shown —
`st.success(f"{name} registered successfully!")` at app.py line 100 runs
unconditionally after the loop, so a batch in which every image yields
zero vectors still reports success. -/
theorem register_success_despite_no_vectors :
    register [] "Alice" [⟨"photo.jpg", []⟩] =
      ⟨[], ["No face detected in photo.jpg"], true⟩ := rfl

/-- C8 counterexample: re-enrolling an already-enrolled name with a new
photo of the same file extension does NOT append — the save path is again
"Alice.jpg", so `cv2.imwrite` overwrites the file and the previously
stored reference vector is replaced: after the second enrollment the
registry no longer contains the old vector. -/
theorem register_overwrites_same_extension :
    (register [] "Alice" [⟨"a.jpg", [[0]]⟩]).store = [("Alice.jpg", [[0]])] ∧
    (register [("Alice.jpg", [[0]])] "Alice" [⟨"b.jpg", [[1]]⟩]).store =
      [("Alice.jpg", [[1]])] ∧
    ([0] : FeatureVec) ∉ (load_known_faces [⟨"Alice.jpg", [[1]]⟩]).1 := by
  refine ⟨rfl, rfl, ?_⟩
  have h1 : load_known_faces [⟨"Alice.jpg", [[1]]⟩] = ([[1]], ["Alice"]) := rfl
  rw [h1]
  simp only [List.mem_singleton]
  intro h
  simp at h

theorem storeWrite_keys (store : List (String × List FeatureVec)) (key : String)
    (v : List FeatureVec) :
    (storeWrite store key v).map Prod.fst = store.map Prod.fst ∨
    (storeWrite store key v).map Prod.fst = store.map Prod.fst ++ [key] := by
  unfold storeWrite
  split
  · left
    rw [List.map_map]
    apply List.map_congr_left
    intro q hq
    by_cases h : q.1 = key
    · simp [h]
    · simp [h]
  · right
    simp

theorem register_foldl_keys (p : String) :
    ∀ (files : List UploadedFile) (s : List (String × List FeatureVec))
      (e : List String) (k : String),
      k ∈ s.map Prod.fst →
      k ∈ (files.foldl (registerStep p) (s, e)).1.map Prod.fst := by
  intro files
  induction files with
  | nil => intro s e k hk; simpa using hk
  | cons f t ih =>
    intro s e k hk
    rw [List.foldl_cons]
    by_cases h : f.encodings.length = 0
    · rw [show registerStep p (s, e) f =
        (s, e ++ ["No face detected in " ++ f.name]) from by simp [registerStep, h]]
      exact ih s _ k hk
    · rw [show registerStep p (s, e) f =
        (storeWrite s (savePath p f.name) f.encodings, e) from by simp [registerStep, h]]
      refine ih _ e k ?_
      rcases storeWrite_keys s (savePath p f.name) f.encodings with hw | hw
      · rw [hw]; exact hk
      · rw [hw]; exact List.mem_append_left _ hk

/-- C8 as amended: enrollment stores an accepted image under the filename
derived from the (normalized) name and the image's file extension.  When
that filename is not yet in the store the identity's stored material is
extended (the old entries survive unchanged and the new entry is
appended); when it is already present that file is overwritten in place
and its reference vectors are replaced.  No identity is ever deleted: any
filename present in the store before an enrollment batch is still present
after it. -/
theorem register_extends_or_replaces (store : List (String × List FeatureVec))
    (p : String) (f : UploadedFile) (hf : f.encodings ≠ []) :
    ((savePath p f.name ∈ store.map Prod.fst →
        (register store p [f]).store =
          store.map (fun q => if q.1 = savePath p f.name
            then (savePath p f.name, f.encodings) else q)) ∧
      (savePath p f.name ∉ store.map Prod.fst →
        (register store p [f]).store = store ++ [(savePath p f.name, f.encodings)])) ∧
    (∀ (files : List UploadedFile) (k : String),
      k ∈ store.map Prod.fst → k ∈ (register store p files).store.map Prod.fst) := by
  have hone : (register store p [f]).store =
      storeWrite store (savePath p f.name) f.encodings := by
    show (List.foldl (registerStep p) (store, []) [f]).1 = _
    rw [List.foldl_cons]
    rw [show registerStep p (store, []) f =
      (storeWrite store (savePath p f.name) f.encodings, []) from by
        simp [registerStep, List.length_eq_zero, hf]]
    rfl
  have hmem_any : (store.any (fun q => decide (q.1 = savePath p f.name)) = true) ↔
      savePath p f.name ∈ store.map Prod.fst := by
    simp [List.any_eq_true, List.mem_map]
  refine ⟨⟨?_, ?_⟩, ?_⟩
  · intro hin
    rw [hone]
    unfold storeWrite
    rw [if_pos (hmem_any.mpr hin)]
  · intro hout
    rw [hone]
    unfold storeWrite
    rw [if_neg (fun hc => hout (hmem_any.mp hc))]
  · intro files k hk
    exact register_foldl_keys p files store [] k hk

/-- Witness for C8 (amended): enrolling a fresh name appends the new
entry to the store. -/
theorem register_extends_or_replaces_witness :
    (register [] "Alice" [⟨"a.jpg", [[0]]⟩]).store =
      [] ++ [(savePath "Alice" "a.jpg", [[0]])] :=
  (register_extends_or_replaces [] "Alice" ⟨"a.jpg", [[0]]⟩ (by simp)).1.2 (by simp)
